import Mathlib

/-!
Verification of the chapter-splitting core of `book-splitter` (`src/split.rs`).

The Rust code is shallowly embedded as follows.

* The input file is a list of lines (`reader.lines()` yields lines with the
  terminator stripped), and the regex engine is external, so a compiled
  pattern is the result of `Regex::new`: `none` models a compilation
  failure, `some isMatch` models a compiled regex whose `is_match` is the
  boolean predicate `isMatch`.
* Fallible I/O is modelled by an oracle `IOEnv`: whether the event
  channel's receiving side is still connected (`crossbeam` `send` fails
  exactly when every receiver was dropped), whether `create_dir_all` and
  `File::open` succeed, and whether the `File::create` + `write_all` pair
  for the file of a given chapter number succeeds.
* Every `channel.send(...).unwrap()` in the Rust code panics when the
  receiver is disconnected; a panic is modelled by the whole run returning
  `none`.
* A run's observable outcome records the files written (in write order,
  with the name computed by `format!("{:04}.txt", chapter_number)`), the
  events sent, whether the output directory was created, and the error the
  run ended with, if any.
-/

namespace BookSplitter

/-- Error kinds of `split_chapters_internal`: `Regex::new` failure,
`create_dir_all` failure, `File::open` failure, and `File::create` /
`write_all` failure. The Rust code carries these as `anyhow::Error`. -/
inductive EngineError where
  | patternError : EngineError
  | dirError : EngineError
  | openError : EngineError
  | writeError : EngineError
deriving DecidableEq, Repr

/-- The `StatusReport` enum of `split.rs`. The Rust `Error` variant carries
an `anyhow::Error`; here it carries the kind of the error that produced it. -/
inductive StatusReport where
  | Started : StatusReport
  | LinesParsed : Nat → StatusReport
  | ChaptersSplit : Nat → StatusReport
  | NewTitle : String → StatusReport
  | Error : EngineError → StatusReport
  | Done : StatusReport
deriving DecidableEq, Repr

/-- I/O oracle for one run: `connected` tells whether the receiving end of
the event channel is still alive (a `crossbeam` `send` succeeds iff it is),
`createDirOk` and `openOk` tell whether `create_dir_all` and `File::open`
succeed, and `writeOk n` tells whether creating and writing the output file
for chapter number `n` succeeds. -/
structure IOEnv where
  connected : Bool
  createDirOk : Bool
  openOk : Bool
  writeOk : Nat → Bool

/-- One output file: the chapter number it was written under, the file
name computed from that number, and the bytes written. -/
structure FileOut where
  idx : Nat
  name : String
  content : String
deriving DecidableEq, Repr

/-- Rust's `format!("{:04}", n)` for unsigned `n`: the decimal digits of
`n`, left-padded with zeros to at least `width` characters, never
truncated. -/
def rustZeroPad (width n : Nat) : String :=
  let digits := Nat.repr n
  String.mk (List.replicate (width - digits.length) '0') ++ digits

/-- The file name `format!("{:04}.txt", chapter_number)` of `split.rs`
(lines 61 and 86). The join with the output folder is elided: all files of
one run live in the same folder. -/
def fileName (n : Nat) : String := rustZeroPad 4 n ++ ".txt"

/-- Result of processing one input line: a panic (an `unwrap` on a `send`
to a disconnected channel), an abort with an I/O error (events already
sent stay sent), or the files written, events sent and updated loop state. -/
inductive StepRes where
  | panic : StepRes
  | fail : List FileOut → List StatusReport → EngineError → StepRes
  | ok : List FileOut → List StatusReport → Nat → Nat → String → StepRes
deriving Repr

/-- The unconditional tail of the loop body (`split.rs` lines 72-81): push
the line and a newline onto `chapter_text`, increment `line_number`, and
every 1000 lines send `LinesParsed(line_number)` (an `unwrap`, hence a
panic point). `files` and `evs` are what the earlier part of this loop
iteration already wrote and sent. -/
def finishLine (env : IOEnv) (line : String) (files : List FileOut)
    (evs : List StatusReport) (ch ln : Nat) (text : String) : StepRes :=
  let text' := (text ++ line) ++ "\n"
  let ln' := ln + 1
  if ln' % 1000 = 0 then
    if env.connected then
      StepRes.ok files (evs ++ [StatusReport.LinesParsed ln']) ch ln' text'
    else StepRes.panic
  else StepRes.ok files evs ch ln' text'

/-- The body of the `while let` loop of `split_chapters_internal`
(`split.rs` lines 55-82) for one line: on a match, send `NewTitle`, flush
the accumulated `chapter_text` (if non-empty) to the file of the current
`chapter_number`, increment `chapter_number`, send `ChaptersSplit`; in all
cases append the line and count it. -/
def lineStep (isMatch : String → Bool) (env : IOEnv) (line : String)
    (ch ln : Nat) (text : String) : StepRes :=
  if isMatch line then
    if env.connected then
      if text = "" then
        if env.connected then
          finishLine env line []
            [StatusReport.NewTitle line, StatusReport.ChaptersSplit (ch + 1)]
            (ch + 1) ln text
        else StepRes.panic
      else
        if env.writeOk ch then
          if env.connected then
            finishLine env line [⟨ch, fileName ch, text⟩]
              [StatusReport.NewTitle line, StatusReport.ChaptersSplit (ch + 1)]
              (ch + 1) ln ""
          else StepRes.panic
        else StepRes.fail [] [StatusReport.NewTitle line] EngineError.writeError
    else StepRes.panic
  else finishLine env line [] [] ch ln text

/-- State after the line loop: files written and events sent so far, the
error that stopped the loop (if any), and the final `chapter_number`,
`line_number` and `chapter_text`. -/
structure LoopOut where
  files : List FileOut
  events : List StatusReport
  err : Option EngineError
  chapterNumber : Nat
  lineNumber : Nat
  chapterText : String
deriving Repr

/-- The whole `while let` loop of `split_chapters_internal`, iterating
`lineStep` over the input lines. `none` models a panic. -/
def processLines (isMatch : String → Bool) (env : IOEnv) :
    List String → Nat → Nat → String → Option LoopOut
  | [], ch, ln, text =>
    some ⟨[], [], none, ch, ln, text⟩
  | line :: rest, ch, ln, text =>
    match lineStep isMatch env line ch ln text with
    | StepRes.panic => none
    | StepRes.fail fs evs e => some ⟨fs, evs, some e, ch, ln, text⟩
    | StepRes.ok fs evs ch' ln' text' =>
      match processLines isMatch env rest ch' ln' text' with
      | none => none
      | some out =>
        some ⟨fs ++ out.files, evs ++ out.events, out.err,
              out.chapterNumber, out.lineNumber, out.chapterText⟩

/-- Observable outcome of a run: files written (in write order), events
sent, whether `create_dir_all` ran and succeeded, and the error the run
ended with, if any. -/
structure RunOut where
  files : List FileOut
  events : List StatusReport
  dirCreated : Bool
  err : Option EngineError
deriving DecidableEq, Repr

/-- `split_chapters_internal` of `split.rs` (lines 30-92): compile the
pattern, create the output directory, open the source, run the line loop,
then flush the final non-empty `chapter_text` under the current
`chapter_number`. `none` models a panic inside the loop. -/
def split_chapters_internal (compiled : Option (String → Bool))
    (lines : List String) (start_chapter : Nat) (env : IOEnv) :
    Option RunOut :=
  match compiled with
  | none => some ⟨[], [], false, some EngineError.patternError⟩
  | some isMatch =>
    if env.createDirOk then
      if env.openOk then
        match processLines isMatch env lines start_chapter 0 "" with
        | none => none
        | some out =>
          match out.err with
          | some e => some ⟨out.files, out.events, true, some e⟩
          | none =>
            if out.chapterText = "" then
              some ⟨out.files, out.events, true, none⟩
            else if env.writeOk out.chapterNumber then
              some ⟨out.files ++
                      [⟨out.chapterNumber, fileName out.chapterNumber,
                        out.chapterText⟩],
                    out.events, true, none⟩
            else some ⟨out.files, out.events, true, some EngineError.writeError⟩
      else some ⟨[], [], true, some EngineError.openError⟩
    else some ⟨[], [], false, some EngineError.dirError⟩

/-- `split_chapters` of `split.rs` (lines 13-28): send `Started` (an
`unwrap`, hence a panic point), run the internal splitter, then send the
terminal event `Done` or `Error` (again an `unwrap`). -/
def split_chapters (compiled : Option (String → Bool)) (lines : List String)
    (start_chapter : Nat) (env : IOEnv) : Option RunOut :=
  if env.connected then
    match split_chapters_internal compiled lines start_chapter env with
    | none => none
    | some out =>
      if env.connected then
        match out.err with
        | some e =>
          some ⟨out.files, StatusReport.Started :: out.events ++ [StatusReport.Error e],
                out.dirCreated, some e⟩
        | none =>
          some ⟨out.files, StatusReport.Started :: out.events ++ [StatusReport.Done],
                out.dirCreated, none⟩
      else none
  else none

/-- Environment of a normal run: receiver alive, all I/O succeeding. -/
def goodEnv : IOEnv := ⟨true, true, true, fun _ => true⟩

/-- Environment where the caller has dropped the receiving end of the
event channel before the run; all disk I/O would succeed. -/
def droppedEnv : IOEnv := ⟨false, true, true, fun _ => true⟩

/-- `is_match` of a regex matching lines that start with `"Chapter"`. -/
def chapterMatch (s : String) : Bool := s.data.take 7 == "Chapter".data

/-- The example input of the specification. -/
def exLines : List String := ["Chapter 1", "hello", "world", "Chapter 2", "foo"]

/-- The input reconstructed from its lines, each line with its trailing
newline restored: exactly the bytes the engine accumulates. -/
def normalize : List String → String
  | [] => ""
  | l :: ls => (l ++ "\n") ++ normalize ls

/-- Concatenation of the contents of a list of output files, in order. -/
def concatFiles : List FileOut → String
  | [] => ""
  | f :: fs => f.content ++ concatFiles fs

/-- The values carried by the `LinesParsed` events of an event list. -/
def lpVals (evs : List StatusReport) : List Nat :=
  evs.filterMap fun e =>
    match e with
    | StatusReport.LinesParsed n => some n
    | _ => none

/-- The line counts at which the loop sends `LinesParsed`, processing `k`
lines starting from count `ln`: each count that is a multiple of 1000. -/
def lpExpected : Nat → Nat → List Nat
  | _, 0 => []
  | ln, k + 1 =>
    (if (ln + 1) % 1000 = 0 then [ln + 1] else []) ++ lpExpected (ln + 1) k

/-- Terminal events: `Done` and `Error`. -/
def isTerminal : StatusReport → Bool
  | StatusReport.Done => true
  | StatusReport.Error _ => true
  | _ => false

/-- Events the line loop may send: `LinesParsed`, `ChaptersSplit`,
`NewTitle`. -/
def isProgress : StatusReport → Bool
  | StatusReport.LinesParsed _ => true
  | StatusReport.ChaptersSplit _ => true
  | StatusReport.NewTitle _ => true
  | _ => false

/-! ### String helper lemmas -/

/-- A string obtained by appending a newline is never empty. -/
theorem append_newline_ne_empty (a : String) : (a ++ "\n") ≠ "" := by
  intro h
  have h2 : a.data ++ ['\n'] = ([] : List Char) := congrArg String.data h
  simp at h2

/-- The normalized form of a non-empty list of lines is a non-empty
string. -/
theorem normalize_cons_ne_empty (l : String) (ls : List String) :
    normalize (l :: ls) ≠ "" := by
  intro h
  have h2 : (l.data ++ ['\n']) ++ (normalize ls).data = ([] : List Char) :=
    congrArg String.data h
  simp at h2

/-! ### Claim theorems: runs computed on concrete inputs -/

/-- C1 (counterexample): on the specification's example input, with a
pattern matching lines starting with `"Chapter"` and `startChapter = 1`,
the run does NOT produce files named `0001.txt` and `0002.txt` with the
stated contents. -/
theorem C1_counterexample :
    (split_chapters (some chapterMatch) exLines 1 goodEnv).map
        (fun o => o.files.map fun f => (f.name, f.content)) ≠
      some [("0001.txt", "Chapter 1\nhello\nworld\n"),
            ("0002.txt", "Chapter 2\nfoo\n")] := by
  decide

/-- C1 (amended): on the example input with `startChapter = 1` the run
writes `0002.txt` = `"Chapter 1\nhello\nworld\n"` and `0003.txt` =
`"Chapter 2\nfoo\n"` — the chapter begun by the very first matching line
is written under `startChapter + 1`, because the first match already
increments `chapter_number` (without flushing, the buffer being empty) —
and the events are exactly `Started`, `NewTitle("Chapter 1")`,
`ChaptersSplit(2)`, `NewTitle("Chapter 2")`, `ChaptersSplit(3)`, `Done`. -/
theorem C1_example_run :
    split_chapters (some chapterMatch) exLines 1 goodEnv =
      some ⟨[⟨2, "0002.txt", "Chapter 1\nhello\nworld\n"⟩,
             ⟨3, "0003.txt", "Chapter 2\nfoo\n"⟩],
            [StatusReport.Started, StatusReport.NewTitle "Chapter 1",
             StatusReport.ChaptersSplit 2, StatusReport.NewTitle "Chapter 2",
             StatusReport.ChaptersSplit 3, StatusReport.Done],
            true, none⟩ := by
  decide

/-- C2 (counterexample): with the receiving end of the channel dropped,
the run does not process the input at all: the very first
`channel.send(StatusReport::Started).unwrap()` panics (modelled by
`none`), whereas the same inputs with a connected sink write two files. -/
theorem C2_counterexample :
    split_chapters (some chapterMatch) exLines 1 droppedEnv = none ∧
    (split_chapters (some chapterMatch) exLines 1 goodEnv).map
        (fun o => o.files.length) = some 2 := by
  exact ⟨rfl, by decide⟩

/-- C2 (amended): whenever the receiving end of the event channel has been
dropped, the first send (`Started`) fails and its `unwrap` panics: the run
aborts before reading any input and writes no output files. -/
theorem C2_dropped_sink_panics (compiled : Option (String → Bool))
    (lines : List String) (s : Nat) (env : IOEnv)
    (h : env.connected = false) :
    split_chapters compiled lines s env = none := by
  simp [split_chapters, h]

/-- Witness for C2 (amended) at a concrete input. -/
theorem C2_dropped_sink_panics_witness :
    split_chapters (some chapterMatch) exLines 1 droppedEnv = none :=
  C2_dropped_sink_panics (some chapterMatch) exLines 1 droppedEnv rfl

/-- C3 (counterexample): the empty input has zero lines matching the
pattern, yet the run produces zero output files, not exactly one. -/
theorem C3_counterexample :
    (split_chapters (some chapterMatch) [] 1 goodEnv).map
        (fun o => o.files.length) ≠ some 1 := by
  decide

/-- C6: with an invalid (non-compiling) pattern, the failure is detected
before any I/O: no output file is written, the output directory is not
created, and the events are exactly `Started` then the single failure
event. -/
theorem C6_invalid_pattern (lines : List String) (s : Nat) (env : IOEnv)
    (hconn : env.connected = true) :
    split_chapters none lines s env =
      some ⟨[], [StatusReport.Started, StatusReport.Error EngineError.patternError],
            false, some EngineError.patternError⟩ := by
  simp [split_chapters, split_chapters_internal, hconn]

/-- Witness for C6 at a concrete input. -/
theorem C6_invalid_pattern_witness :
    split_chapters none exLines 1 goodEnv =
      some ⟨[], [StatusReport.Started, StatusReport.Error EngineError.patternError],
            false, some EngineError.patternError⟩ :=
  C6_invalid_pattern exLines 1 goodEnv rfl

/-- C9: an empty input file yields a successful run with zero output
files and the event sequence exactly `Started`, `Done`. -/
theorem C9_empty_input (isMatch : String → Bool) (s : Nat) (env : IOEnv)
    (hconn : env.connected = true) (hcd : env.createDirOk = true)
    (ho : env.openOk = true) :
    split_chapters (some isMatch) [] s env =
      some ⟨[], [StatusReport.Started, StatusReport.Done], true, none⟩ := by
  simp [split_chapters, split_chapters_internal, processLines, hconn, hcd, ho]

/-- Witness for C9 at a concrete matcher and environment. -/
theorem C9_empty_input_witness :
    split_chapters (some chapterMatch) [] 1 goodEnv =
      some ⟨[], [StatusReport.Started, StatusReport.Done], true, none⟩ :=
  C9_empty_input chapterMatch 1 goodEnv rfl rfl rfl

/-! ### Loop invariants under a fully good environment -/

/-- Under a connected channel with all writes succeeding, the line loop
never panics or errors; the files it writes concatenate (with the residual
buffer) to the normalized input; chapter numbers only grow; every file is
named from its chapter number and written strictly before that number was
passed; and the `LinesParsed` values are exactly the multiples of 1000
reached by the line counter. -/
theorem processLines_good (isMatch : String → Bool) (env : IOEnv)
    (hconn : env.connected = true) (hw : ∀ n, env.writeOk n = true) :
    ∀ (ls : List String) (ch ln : Nat) (text : String),
    ∃ out, processLines isMatch env ls ch ln text = some out ∧
      out.err = none ∧
      concatFiles out.files ++ out.chapterText = text ++ normalize ls ∧
      ch ≤ out.chapterNumber ∧
      (∀ f ∈ out.files, ch ≤ f.idx ∧ f.idx < out.chapterNumber ∧
        f.name = fileName f.idx) ∧
      List.Pairwise (fun a b => a.idx < b.idx) out.files ∧
      lpVals out.events = lpExpected ln ls.length := by
  intro ls
  induction ls with
  | nil =>
    intro ch ln text
    exact ⟨⟨[], [], none, ch, ln, text⟩, by
      simp [processLines, concatFiles, normalize, lpVals, lpExpected,
        String.append_empty]⟩
  | cons line rest ih =>
    intro ch ln text
    cases hmatch : isMatch line with
    | false =>
      obtain ⟨out, hout, herr, hcat, hch, hfile, hpw, hlp⟩ :=
        ih ch (ln + 1) ((text ++ line) ++ "\n")
      have hcat2 : concatFiles out.files ++ out.chapterText =
          text ++ normalize (line :: rest) := by
        rw [hcat]
        simp only [normalize]
        simp [String.append_assoc]
      by_cases hmod : (ln + 1) % 1000 = 0
      · refine ⟨⟨out.files, StatusReport.LinesParsed (ln + 1) :: out.events,
          out.err, out.chapterNumber, out.lineNumber, out.chapterText⟩,
          ?_, herr, hcat2, hch, hfile, hpw, ?_⟩
        · simp [processLines, lineStep, finishLine, hconn, hmatch, hmod, hout]
        · show lpVals (StatusReport.LinesParsed (ln + 1) :: out.events) =
            lpExpected ln (line :: rest).length
          simp [lpVals, lpExpected, hmod]
          simpa [lpVals] using hlp
      · refine ⟨⟨out.files, out.events,
          out.err, out.chapterNumber, out.lineNumber, out.chapterText⟩,
          ?_, herr, hcat2, hch, hfile, hpw, ?_⟩
        · simp [processLines, lineStep, finishLine, hconn, hmatch, hmod, hout]
        · show lpVals out.events = lpExpected ln (line :: rest).length
          simp [lpExpected, hmod]
          exact hlp
    | true =>
      obtain ⟨out, hout, herr, hcat, hch, hfile, hpw, hlp⟩ :=
        ih (ch + 1) (ln + 1) (line ++ "\n")
      have hch2 : ch ≤ out.chapterNumber := Nat.le_of_succ_le hch
      have hfileW : ∀ f ∈ out.files, ch ≤ f.idx ∧ f.idx < out.chapterNumber ∧
          f.name = fileName f.idx := fun f hf =>
        ⟨Nat.le_of_succ_le (hfile f hf).1, (hfile f hf).2.1, (hfile f hf).2.2⟩
      by_cases htext : text = ""
      · subst htext
        have hcat2 : concatFiles out.files ++ out.chapterText =
            "" ++ normalize (line :: rest) := by
          rw [hcat]
          simp only [normalize]
          simp [String.append_assoc]
        by_cases hmod : (ln + 1) % 1000 = 0
        · refine ⟨⟨out.files,
            StatusReport.NewTitle line :: StatusReport.ChaptersSplit (ch + 1) ::
              StatusReport.LinesParsed (ln + 1) :: out.events,
            out.err, out.chapterNumber, out.lineNumber, out.chapterText⟩,
            ?_, herr, hcat2, hch2, hfileW, hpw, ?_⟩
          · simp [processLines, lineStep, finishLine, hconn, hmatch, hmod, hout]
          · show lpVals (StatusReport.NewTitle line ::
                StatusReport.ChaptersSplit (ch + 1) ::
                StatusReport.LinesParsed (ln + 1) :: out.events) =
              lpExpected ln (line :: rest).length
            simp [lpVals, lpExpected, hmod]
            simpa [lpVals] using hlp
        · refine ⟨⟨out.files,
            StatusReport.NewTitle line :: StatusReport.ChaptersSplit (ch + 1) ::
              out.events,
            out.err, out.chapterNumber, out.lineNumber, out.chapterText⟩,
            ?_, herr, hcat2, hch2, hfileW, hpw, ?_⟩
          · simp [processLines, lineStep, finishLine, hconn, hmatch, hmod, hout]
          · show lpVals (StatusReport.NewTitle line ::
                StatusReport.ChaptersSplit (ch + 1) :: out.events) =
              lpExpected ln (line :: rest).length
            simp [lpVals, lpExpected, hmod]
            simpa [lpVals] using hlp
      · have hcat2 : concatFiles (⟨ch, fileName ch, text⟩ :: out.files) ++
            out.chapterText = text ++ normalize (line :: rest) := by
          simp only [concatFiles, normalize]
          rw [String.append_assoc, hcat]
        have hfile2 : ∀ f ∈ (⟨ch, fileName ch, text⟩ : FileOut) :: out.files,
            ch ≤ f.idx ∧ f.idx < out.chapterNumber ∧ f.name = fileName f.idx := by
          intro f hf
          rcases List.mem_cons.mp hf with hf | hf
          · subst hf
            exact ⟨Nat.le_refl ch, Nat.lt_of_succ_le hch, rfl⟩
          · exact ⟨Nat.le_of_succ_le (hfile f hf).1, (hfile f hf).2.1,
              (hfile f hf).2.2⟩
        have hpw2 : List.Pairwise (fun a b => a.idx < b.idx)
            ((⟨ch, fileName ch, text⟩ : FileOut) :: out.files) :=
          List.pairwise_cons.mpr
            ⟨fun g hg => Nat.lt_of_succ_le (hfile g hg).1, hpw⟩
        by_cases hmod : (ln + 1) % 1000 = 0
        · refine ⟨⟨⟨ch, fileName ch, text⟩ :: out.files,
            StatusReport.NewTitle line :: StatusReport.ChaptersSplit (ch + 1) ::
              StatusReport.LinesParsed (ln + 1) :: out.events,
            out.err, out.chapterNumber, out.lineNumber, out.chapterText⟩,
            ?_, herr, hcat2, hch2, hfile2, hpw2, ?_⟩
          · simp [processLines, lineStep, finishLine, hconn, hw, hmatch, htext,
              hmod, hout]
          · show lpVals (StatusReport.NewTitle line ::
                StatusReport.ChaptersSplit (ch + 1) ::
                StatusReport.LinesParsed (ln + 1) :: out.events) =
              lpExpected ln (line :: rest).length
            simp [lpVals, lpExpected, hmod]
            simpa [lpVals] using hlp
        · refine ⟨⟨⟨ch, fileName ch, text⟩ :: out.files,
            StatusReport.NewTitle line :: StatusReport.ChaptersSplit (ch + 1) ::
              out.events,
            out.err, out.chapterNumber, out.lineNumber, out.chapterText⟩,
            ?_, herr, hcat2, hch2, hfile2, hpw2, ?_⟩
          · simp [processLines, lineStep, finishLine, hconn, hw, hmatch, htext,
              hmod, hout]
          · show lpVals (StatusReport.NewTitle line ::
                StatusReport.ChaptersSplit (ch + 1) :: out.events) =
              lpExpected ln (line :: rest).length
            simp [lpVals, lpExpected, hmod]
            simpa [lpVals] using hlp

/-- A count is an expected `LinesParsed` value iff it lies in the
processed window and is a multiple of 1000. -/
theorem lpExpected_mem : ∀ (k ln n : Nat),
    n ∈ lpExpected ln k ↔ (ln < n ∧ n ≤ ln + k ∧ n % 1000 = 0) := by
  intro k
  induction k with
  | zero =>
    intro ln n
    simp [lpExpected]
    omega
  | succ k ih =>
    intro ln n
    by_cases hc : (ln + 1) % 1000 = 0 <;>
      simp [lpExpected, hc, ih (ln + 1) n] <;> omega

/-- Expected `LinesParsed` values are strictly increasing. -/
theorem lpExpected_pairwise : ∀ (k ln : Nat),
    List.Pairwise (· < ·) (lpExpected ln k) := by
  intro k
  induction k with
  | zero => intro ln; simp [lpExpected]
  | succ k ih =>
    intro ln
    by_cases hc : (ln + 1) % 1000 = 0 <;> simp [lpExpected, hc]
    · refine ⟨?_, ih (ln + 1)⟩
      intro m hm
      have := (lpExpected_mem k (ln + 1) m).mp hm
      omega
    · exact ih (ln + 1)

/-- File-content concatenation distributes over list append. -/
theorem concatFiles_append (xs ys : List FileOut) :
    concatFiles (xs ++ ys) = concatFiles xs ++ concatFiles ys := by
  induction xs with
  | nil => simp [concatFiles]
  | cons x xs ih => simp [concatFiles, ih, String.append_assoc]

/-- Zero-padding to width 4 yields at least 4 characters and exactly the
number of decimal digits once that exceeds 4. -/
theorem rustZeroPad_length (n : Nat) :
    (rustZeroPad 4 n).length = max 4 (Nat.repr n).length := by
  have h : (rustZeroPad 4 n).length =
      (4 - (Nat.repr n).length) + (Nat.repr n).length := by
    simp [rustZeroPad, String.length_append]
  omega

/-- Once the index has at least 4 digits, padding changes nothing: the
digits simply grow, with no cap or truncation. -/
theorem rustZeroPad_no_trunc (n : Nat) (h : 4 ≤ (Nat.repr n).length) :
    rustZeroPad 4 n = Nat.repr n := by
  simp [rustZeroPad, Nat.sub_eq_zero_of_le h]

/-- A progress event is neither terminal nor `Started`. -/
theorem progress_not_terminal (e : StatusReport) (h : isProgress e = true) :
    isTerminal e = false ∧ e ≠ StatusReport.Started := by
  cases e <;> simp [isProgress, isTerminal] at h ⊢

/-- As long as the channel stays connected the loop never panics, whatever
the disk does, and every event it sends is a progress event. -/
theorem processLines_conn (isMatch : String → Bool) (env : IOEnv)
    (hconn : env.connected = true) :
    ∀ (ls : List String) (ch ln : Nat) (text : String),
    ∃ out, processLines isMatch env ls ch ln text = some out ∧
      ∀ e ∈ out.events, isProgress e = true := by
  intro ls
  induction ls with
  | nil =>
    intro ch ln text
    exact ⟨⟨[], [], none, ch, ln, text⟩, by simp [processLines]⟩
  | cons line rest ih =>
    intro ch ln text
    cases hmatch : isMatch line with
    | false =>
      obtain ⟨out, hout, hprog⟩ := ih ch (ln + 1) ((text ++ line) ++ "\n")
      by_cases hmod : (ln + 1) % 1000 = 0
      · refine ⟨⟨out.files, StatusReport.LinesParsed (ln + 1) :: out.events,
          out.err, out.chapterNumber, out.lineNumber, out.chapterText⟩, ?_, ?_⟩
        · simp [processLines, lineStep, finishLine, hconn, hmatch, hmod, hout]
        · intro e he
          rcases List.mem_cons.mp he with he | he
          · subst he; rfl
          · exact hprog e he
      · refine ⟨⟨out.files, out.events,
          out.err, out.chapterNumber, out.lineNumber, out.chapterText⟩, ?_, hprog⟩
        simp [processLines, lineStep, finishLine, hconn, hmatch, hmod, hout]
    | true =>
      by_cases htext : text = ""
      · subst htext
        obtain ⟨out, hout, hprog⟩ := ih (ch + 1) (ln + 1) (line ++ "\n")
        by_cases hmod : (ln + 1) % 1000 = 0
        · refine ⟨⟨out.files, StatusReport.NewTitle line ::
            StatusReport.ChaptersSplit (ch + 1) ::
            StatusReport.LinesParsed (ln + 1) :: out.events,
            out.err, out.chapterNumber, out.lineNumber, out.chapterText⟩, ?_, ?_⟩
          · simp [processLines, lineStep, finishLine, hconn, hmatch, hmod, hout]
          · intro e he
            rcases List.mem_cons.mp he with he | he
            · subst he; rfl
            rcases List.mem_cons.mp he with he | he
            · subst he; rfl
            rcases List.mem_cons.mp he with he | he
            · subst he; rfl
            · exact hprog e he
        · refine ⟨⟨out.files, StatusReport.NewTitle line ::
            StatusReport.ChaptersSplit (ch + 1) :: out.events,
            out.err, out.chapterNumber, out.lineNumber, out.chapterText⟩, ?_, ?_⟩
          · simp [processLines, lineStep, finishLine, hconn, hmatch, hmod, hout]
          · intro e he
            rcases List.mem_cons.mp he with he | he
            · subst he; rfl
            rcases List.mem_cons.mp he with he | he
            · subst he; rfl
            · exact hprog e he
      · by_cases hwk : env.writeOk ch
        · obtain ⟨out, hout, hprog⟩ := ih (ch + 1) (ln + 1) (line ++ "\n")
          by_cases hmod : (ln + 1) % 1000 = 0
          · refine ⟨⟨⟨ch, fileName ch, text⟩ :: out.files,
              StatusReport.NewTitle line :: StatusReport.ChaptersSplit (ch + 1) ::
              StatusReport.LinesParsed (ln + 1) :: out.events,
              out.err, out.chapterNumber, out.lineNumber, out.chapterText⟩, ?_, ?_⟩
            · simp [processLines, lineStep, finishLine, hconn, hmatch, htext,
                hwk, hmod, hout]
            · intro e he
              rcases List.mem_cons.mp he with he | he
              · subst he; rfl
              rcases List.mem_cons.mp he with he | he
              · subst he; rfl
              rcases List.mem_cons.mp he with he | he
              · subst he; rfl
              · exact hprog e he
          · refine ⟨⟨⟨ch, fileName ch, text⟩ :: out.files,
              StatusReport.NewTitle line :: StatusReport.ChaptersSplit (ch + 1) ::
              out.events,
              out.err, out.chapterNumber, out.lineNumber, out.chapterText⟩, ?_, ?_⟩
            · simp [processLines, lineStep, finishLine, hconn, hmatch, htext,
                hwk, hmod, hout]
            · intro e he
              rcases List.mem_cons.mp he with he | he
              · subst he; rfl
              rcases List.mem_cons.mp he with he | he
              · subst he; rfl
              · exact hprog e he
        · refine ⟨⟨[], [StatusReport.NewTitle line], some EngineError.writeError,
            ch, ln, text⟩, ?_, ?_⟩
          · simp [processLines, lineStep, hconn, hmatch, htext, hwk]
          · intro e he
            rcases List.mem_cons.mp he with he | he
            · subst he; rfl
            · simp at he

/-- Over lines none of which match, the loop writes no file, keeps the
chapter number, and appends every line (with newline) to the buffer. -/
theorem processLines_nomatch (isMatch : String → Bool) (env : IOEnv)
    (hconn : env.connected = true) :
    ∀ (ls : List String) (ch ln : Nat) (text : String),
    (∀ l ∈ ls, isMatch l = false) →
    ∃ out, processLines isMatch env ls ch ln text = some out ∧
      out.err = none ∧ out.files = [] ∧ out.chapterNumber = ch ∧
      out.chapterText = text ++ normalize ls := by
  intro ls
  induction ls with
  | nil =>
    intro ch ln text _
    exact ⟨⟨[], [], none, ch, ln, text⟩, by
      simp [processLines, normalize, String.append_empty]⟩
  | cons line rest ih =>
    intro ch ln text hnm
    have hmatch : isMatch line = false := hnm line (List.mem_cons_self line rest)
    obtain ⟨out, hout, herr, hfs, hch, htext⟩ :=
      ih ch (ln + 1) ((text ++ line) ++ "\n") fun l hl => hnm l (List.mem_cons_of_mem line hl)
    have htext2 : out.chapterText = text ++ normalize (line :: rest) := by
      rw [htext]
      simp only [normalize]
      simp [String.append_assoc]
    by_cases hmod : (ln + 1) % 1000 = 0
    · refine ⟨⟨out.files, StatusReport.LinesParsed (ln + 1) :: out.events,
        out.err, out.chapterNumber, out.lineNumber, out.chapterText⟩,
        ?_, herr, hfs, hch, htext2⟩
      simp [processLines, lineStep, finishLine, hconn, hmatch, hmod, hout]
    · refine ⟨⟨out.files, out.events,
        out.err, out.chapterNumber, out.lineNumber, out.chapterText⟩,
        ?_, herr, hfs, hch, htext2⟩
      simp [processLines, lineStep, finishLine, hconn, hmatch, hmod, hout]

/-- Starting from a non-empty buffer under a good environment, either no
file is written and the buffer stays non-empty at the same chapter number,
or the first file written carries the starting chapter number. -/
theorem processLines_first_idx (isMatch : String → Bool) (env : IOEnv)
    (hconn : env.connected = true) (hw : ∀ n, env.writeOk n = true) :
    ∀ (ls : List String) (ch ln : Nat) (text : String), text ≠ "" →
    ∃ out, processLines isMatch env ls ch ln text = some out ∧ out.err = none ∧
      ((out.files = [] ∧ out.chapterNumber = ch ∧ out.chapterText ≠ "") ∨
       (∃ f fs, out.files = f :: fs ∧ f.idx = ch)) := by
  intro ls
  induction ls with
  | nil =>
    intro ch ln text hne
    exact ⟨⟨[], [], none, ch, ln, text⟩, by simp [processLines], rfl,
      Or.inl ⟨rfl, rfl, hne⟩⟩
  | cons line rest ih =>
    intro ch ln text hne
    cases hmatch : isMatch line with
    | false =>
      obtain ⟨out, hout, herr, hdisj⟩ :=
        ih ch (ln + 1) ((text ++ line) ++ "\n") (append_newline_ne_empty (text ++ line))
      by_cases hmod : (ln + 1) % 1000 = 0
      · refine ⟨⟨out.files, StatusReport.LinesParsed (ln + 1) :: out.events,
          out.err, out.chapterNumber, out.lineNumber, out.chapterText⟩,
          ?_, herr, hdisj⟩
        simp [processLines, lineStep, finishLine, hconn, hmatch, hmod, hout]
      · refine ⟨⟨out.files, out.events,
          out.err, out.chapterNumber, out.lineNumber, out.chapterText⟩,
          ?_, herr, hdisj⟩
        simp [processLines, lineStep, finishLine, hconn, hmatch, hmod, hout]
    | true =>
      obtain ⟨out, hout, herr, _, _, _, _, _⟩ :=
        processLines_good isMatch env hconn hw rest (ch + 1) (ln + 1) (line ++ "\n")
      by_cases hmod : (ln + 1) % 1000 = 0
      · refine ⟨⟨⟨ch, fileName ch, text⟩ :: out.files,
          StatusReport.NewTitle line :: StatusReport.ChaptersSplit (ch + 1) ::
          StatusReport.LinesParsed (ln + 1) :: out.events,
          out.err, out.chapterNumber, out.lineNumber, out.chapterText⟩,
          ?_, herr, Or.inr ⟨⟨ch, fileName ch, text⟩, out.files, rfl, rfl⟩⟩
        simp [processLines, lineStep, finishLine, hconn, hw, hmatch, hne, hmod, hout]
      · refine ⟨⟨⟨ch, fileName ch, text⟩ :: out.files,
          StatusReport.NewTitle line :: StatusReport.ChaptersSplit (ch + 1) ::
          out.events,
          out.err, out.chapterNumber, out.lineNumber, out.chapterText⟩,
          ?_, herr, Or.inr ⟨⟨ch, fileName ch, text⟩, out.files, rfl, rfl⟩⟩
        simp [processLines, lineStep, finishLine, hconn, hw, hmatch, hne, hmod, hout]

/-- The loop over `xs ++ ys` is the loop over `xs` followed, if no panic
or error stopped it, by the loop over `ys` from the reached state. -/
theorem processLines_append (isMatch : String → Bool) (env : IOEnv) :
    ∀ (xs ys : List String) (ch ln : Nat) (text : String),
    processLines isMatch env (xs ++ ys) ch ln text =
      match processLines isMatch env xs ch ln text with
      | none => none
      | some o =>
        match o.err with
        | some _ => some o
        | none =>
          match processLines isMatch env ys o.chapterNumber o.lineNumber
              o.chapterText with
          | none => none
          | some o2 =>
            some ⟨o.files ++ o2.files, o.events ++ o2.events, o2.err,
                  o2.chapterNumber, o2.lineNumber, o2.chapterText⟩ := by
  intro xs
  induction xs with
  | nil =>
    intro ys ch ln text
    simp only [List.nil_append, processLines]
    cases processLines isMatch env ys ch ln text <;> simp
  | cons x xs ih =>
    intro ys ch ln text
    simp only [List.cons_append, processLines]
    cases hls : lineStep isMatch env x ch ln text with
    | panic => rfl
    | fail fs evs e => rfl
    | ok fs evs ch' ln' text' =>
      simp only [List.append_eq]
      rw [ih ys ch' ln' text']
      cases ho : processLines isMatch env xs ch' ln' text' with
      | none => rfl
      | some o =>
        cases he : o.err with
        | some e => simp [he]
        | none =>
          cases h2 : processLines isMatch env ys o.chapterNumber o.lineNumber
              o.chapterText with
          | none => simp [he, h2]
          | some o2 => simp [he, h2, List.append_assoc]

/-- C4: for every input, a run under a live channel with working disk
succeeds, its files are in strictly increasing chapter-index order (which
is also write order), and concatenating their contents reconstructs the
whole input, each line with its newline: nothing lost, duplicated or
reordered. -/
theorem C4_partition (isMatch : String → Bool) (lines : List String) (s : Nat)
    (env : IOEnv) (hconn : env.connected = true)
    (hw : ∀ n, env.writeOk n = true) (hcd : env.createDirOk = true)
    (ho : env.openOk = true) :
    ∃ out, split_chapters (some isMatch) lines s env = some out ∧
      out.err = none ∧
      List.Pairwise (· < ·) (out.files.map FileOut.idx) ∧
      concatFiles out.files = normalize lines := by
  obtain ⟨lout, hpl, herr, hcat, hch, hfile, hpw, hlp⟩ :=
    processLines_good isMatch env hconn hw lines s 0 ""
  by_cases htext : lout.chapterText = ""
  · refine ⟨⟨lout.files,
      StatusReport.Started :: lout.events ++ [StatusReport.Done], true, none⟩,
      ?_, rfl, ?_, ?_⟩
    · simp [split_chapters, split_chapters_internal, hconn, hcd, ho, hpl, herr,
        htext]
    · show List.Pairwise (· < ·) (lout.files.map FileOut.idx)
      exact List.pairwise_map.mpr hpw
    · show concatFiles lout.files = normalize lines
      have h2 := hcat
      rw [htext, String.append_empty] at h2
      simpa using h2
  · refine ⟨⟨lout.files ++
      [⟨lout.chapterNumber, fileName lout.chapterNumber, lout.chapterText⟩],
      StatusReport.Started :: lout.events ++ [StatusReport.Done], true, none⟩,
      ?_, rfl, ?_, ?_⟩
    · simp [split_chapters, split_chapters_internal, hconn, hcd, ho, hpl, herr,
        htext, hw]
    · show List.Pairwise (· < ·) ((lout.files ++
        [(⟨lout.chapterNumber, fileName lout.chapterNumber,
          lout.chapterText⟩ : FileOut)]).map FileOut.idx)
      rw [List.map_append]
      refine List.pairwise_append.mpr ⟨List.pairwise_map.mpr hpw, by simp, ?_⟩
      intro a ha b hb
      simp only [List.map_cons, List.map_nil, List.mem_singleton] at hb
      obtain ⟨f, hf, rfl⟩ := List.mem_map.mp ha
      subst hb
      exact (hfile f hf).2.1
    · show concatFiles (lout.files ++
        [(⟨lout.chapterNumber, fileName lout.chapterNumber,
          lout.chapterText⟩ : FileOut)]) = normalize lines
      rw [concatFiles_append]
      simp only [concatFiles]
      rw [String.append_empty]
      simpa using hcat

/-- C3 (amended): for any NON-EMPTY input none of whose lines match the
pattern, the run writes exactly one file, named from `startChapter`, whose
content is the entire input (each line with its trailing newline). -/
theorem C3_no_match (isMatch : String → Bool) (lines : List String) (s : Nat)
    (env : IOEnv) (hconn : env.connected = true)
    (hw : ∀ n, env.writeOk n = true) (hcd : env.createDirOk = true)
    (ho : env.openOk = true) (hnm : ∀ l ∈ lines, isMatch l = false)
    (hne : lines ≠ []) :
    ∃ out, split_chapters (some isMatch) lines s env = some out ∧
      out.err = none ∧ out.files = [⟨s, fileName s, normalize lines⟩] := by
  obtain ⟨lout, hpl, herr, hfs, hch, htext⟩ :=
    processLines_nomatch isMatch env hconn lines s 0 "" hnm
  have htx : lout.chapterText = normalize lines := htext.trans rfl
  have hne3 : normalize lines ≠ "" := by
    cases lines with
    | nil => exact absurd rfl hne
    | cons l ls => exact normalize_cons_ne_empty l ls
  refine ⟨⟨[⟨s, fileName s, normalize lines⟩],
    StatusReport.Started :: lout.events ++ [StatusReport.Done], true, none⟩,
    ?_, rfl, rfl⟩
  simp [split_chapters, split_chapters_internal, hconn, hcd, ho, hpl, herr,
    hne3, hw, hfs, hch, htx]

/-- C7: over one (successful, observed) run the `LinesParsed` values are
exactly the multiples of 1000 the line counter reaches, in strictly
increasing order; every value is a multiple of 1000, and a value is
emitted iff it is a positive multiple of 1000 not exceeding the number of
input lines. -/
theorem C7_lines_parsed (isMatch : String → Bool) (lines : List String)
    (s : Nat) (env : IOEnv) (hconn : env.connected = true)
    (hw : ∀ n, env.writeOk n = true) (hcd : env.createDirOk = true)
    (ho : env.openOk = true) :
    ∃ out, split_chapters (some isMatch) lines s env = some out ∧
      out.err = none ∧
      lpVals out.events = lpExpected 0 lines.length ∧
      List.Pairwise (· < ·) (lpVals out.events) ∧
      (∀ v ∈ lpVals out.events, v % 1000 = 0) ∧
      (∀ v, v ∈ lpVals out.events ↔ 0 < v ∧ v ≤ lines.length ∧ v % 1000 = 0) := by
  obtain ⟨lout, hpl, herr, hcat, hch, hfile, hpw, hlp⟩ :=
    processLines_good isMatch env hconn hw lines s 0 ""
  have h1 : lpVals (StatusReport.Started :: lout.events ++ [StatusReport.Done]) =
      lpExpected 0 lines.length := by
    simp only [lpVals, List.filterMap_cons, List.filterMap_append]
    simpa [lpVals] using hlp
  have h2 : List.Pairwise (· < ·)
      (lpVals (StatusReport.Started :: lout.events ++ [StatusReport.Done])) := by
    rw [h1]
    exact lpExpected_pairwise lines.length 0
  have h3 : ∀ v ∈ lpVals (StatusReport.Started :: lout.events ++
      [StatusReport.Done]), v % 1000 = 0 := by
    intro v hv
    rw [h1] at hv
    exact ((lpExpected_mem lines.length 0 v).mp hv).2.2
  have h4 : ∀ v, v ∈ lpVals (StatusReport.Started :: lout.events ++
      [StatusReport.Done]) ↔ 0 < v ∧ v ≤ lines.length ∧ v % 1000 = 0 := by
    intro v
    rw [h1, lpExpected_mem]
    omega
  by_cases htext : lout.chapterText = ""
  · refine ⟨⟨lout.files,
      StatusReport.Started :: lout.events ++ [StatusReport.Done], true, none⟩,
      ?_, rfl, h1, h2, h3, h4⟩
    simp [split_chapters, split_chapters_internal, hconn, hcd, ho, hpl, herr,
      htext]
  · refine ⟨⟨lout.files ++
      [⟨lout.chapterNumber, fileName lout.chapterNumber, lout.chapterText⟩],
      StatusReport.Started :: lout.events ++ [StatusReport.Done], true, none⟩,
      ?_, rfl, h1, h2, h3, h4⟩
    simp [split_chapters, split_chapters_internal, hconn, hcd, ho, hpl, herr,
      htext, hw]

/-- C8: every output file of a run is named `<index>.txt` with the index
zero-padded to at least 4 digits: the digit block is `rustZeroPad 4`, its
length is `max 4` the number of decimal digits, and once the index has 4
or more digits (in particular beyond 9999) it is exactly the decimal
representation — digits grow, nothing is capped or truncated. -/
theorem C8_naming (isMatch : String → Bool) (lines : List String) (s : Nat)
    (env : IOEnv) (hconn : env.connected = true)
    (hw : ∀ n, env.writeOk n = true) (hcd : env.createDirOk = true)
    (ho : env.openOk = true) :
    ∃ out, split_chapters (some isMatch) lines s env = some out ∧
      ∀ f ∈ out.files, f.name = rustZeroPad 4 f.idx ++ ".txt" ∧
        (rustZeroPad 4 f.idx).length = max 4 (Nat.repr f.idx).length ∧
        (4 ≤ (Nat.repr f.idx).length → rustZeroPad 4 f.idx = Nat.repr f.idx) := by
  obtain ⟨lout, hpl, herr, hcat, hch, hfile, hpw, hlp⟩ :=
    processLines_good isMatch env hconn hw lines s 0 ""
  by_cases htext : lout.chapterText = ""
  · refine ⟨⟨lout.files,
      StatusReport.Started :: lout.events ++ [StatusReport.Done], true, none⟩,
      ?_, ?_⟩
    · simp [split_chapters, split_chapters_internal, hconn, hcd, ho, hpl, herr,
        htext]
    · intro f hf
      exact ⟨(hfile f hf).2.2, rustZeroPad_length f.idx, rustZeroPad_no_trunc f.idx⟩
  · refine ⟨⟨lout.files ++
      [⟨lout.chapterNumber, fileName lout.chapterNumber, lout.chapterText⟩],
      StatusReport.Started :: lout.events ++ [StatusReport.Done], true, none⟩,
      ?_, ?_⟩
    · simp [split_chapters, split_chapters_internal, hconn, hcd, ho, hpl, herr,
        htext, hw]
    · intro f hf
      rcases List.mem_append.mp hf with hf | hf
      · exact ⟨(hfile f hf).2.2, rustZeroPad_length f.idx,
          rustZeroPad_no_trunc f.idx⟩
      · simp only [List.mem_singleton] at hf
        subst hf
        exact ⟨rfl, rustZeroPad_length _, rustZeroPad_no_trunc _⟩

/-- C5: every run whose events can be observed (the receiver is still
connected) emits `Started` first and exactly once, then progress events
only, and ends with exactly one terminal event — `Done` if the run
succeeded, the single `Error` if it failed — with nothing after it. -/
theorem C5_terminal (compiled : Option (String → Bool)) (lines : List String)
    (s : Nat) (env : IOEnv) (hconn : env.connected = true) :
    ∃ out mid t, split_chapters compiled lines s env = some out ∧
      out.events = StatusReport.Started :: (mid ++ [t]) ∧
      isTerminal t = true ∧
      (∀ e ∈ mid, isTerminal e = false ∧ e ≠ StatusReport.Started) ∧
      (out.err = none → t = StatusReport.Done) ∧
      (∀ er, out.err = some er → t = StatusReport.Error er) := by
  cases compiled with
  | none =>
    refine ⟨⟨[], StatusReport.Started ::
        ([] ++ [StatusReport.Error EngineError.patternError]),
        false, some EngineError.patternError⟩,
      [], StatusReport.Error EngineError.patternError, ?_, rfl, rfl,
      by simp, by simp, ?_⟩
    · simp [split_chapters, split_chapters_internal, hconn]
    · intro er h
      simp only [Option.some.injEq] at h
      subst h
      rfl
  | some isMatch =>
    cases hcd : env.createDirOk with
    | false =>
      refine ⟨⟨[], StatusReport.Started ::
          ([] ++ [StatusReport.Error EngineError.dirError]),
          false, some EngineError.dirError⟩,
        [], StatusReport.Error EngineError.dirError, ?_, rfl, rfl,
        by simp, by simp, ?_⟩
      · simp [split_chapters, split_chapters_internal, hconn, hcd]
      · intro er h
        simp only [Option.some.injEq] at h
        subst h
        rfl
    | true =>
      cases ho : env.openOk with
      | false =>
        refine ⟨⟨[], StatusReport.Started ::
            ([] ++ [StatusReport.Error EngineError.openError]),
            true, some EngineError.openError⟩,
          [], StatusReport.Error EngineError.openError, ?_, rfl, rfl,
          by simp, by simp, ?_⟩
        · simp [split_chapters, split_chapters_internal, hconn, hcd, ho]
        · intro er h
          simp only [Option.some.injEq] at h
          subst h
          rfl
      | true =>
        obtain ⟨lout, hpl, hprog⟩ :=
          processLines_conn isMatch env hconn lines s 0 ""
        have hmid : ∀ e ∈ lout.events, isTerminal e = false ∧
            e ≠ StatusReport.Started :=
          fun e he => progress_not_terminal e (hprog e he)
        cases herr : lout.err with
        | some e =>
          refine ⟨⟨lout.files, StatusReport.Started ::
              (lout.events ++ [StatusReport.Error e]), true, some e⟩,
            lout.events, StatusReport.Error e, ?_, rfl, rfl, hmid,
            by simp, ?_⟩
          · simp [split_chapters, split_chapters_internal, hconn, hcd, ho,
              hpl, herr]
          · intro er h
            simp only [Option.some.injEq] at h
            subst h
            rfl
        | none =>
          by_cases htext : lout.chapterText = ""
          · refine ⟨⟨lout.files, StatusReport.Started ::
                (lout.events ++ [StatusReport.Done]), true, none⟩,
              lout.events, StatusReport.Done, ?_, rfl, rfl, hmid,
              fun _ => rfl, by simp⟩
            simp [split_chapters, split_chapters_internal, hconn, hcd, ho,
              hpl, herr, htext]
          · cases hwk : env.writeOk lout.chapterNumber with
            | true =>
              refine ⟨⟨lout.files ++ [⟨lout.chapterNumber,
                  fileName lout.chapterNumber, lout.chapterText⟩],
                  StatusReport.Started :: (lout.events ++ [StatusReport.Done]),
                  true, none⟩,
                lout.events, StatusReport.Done, ?_, rfl, rfl, hmid,
                fun _ => rfl, by simp⟩
              simp [split_chapters, split_chapters_internal, hconn, hcd, ho,
                hpl, herr, htext, hwk]
            | false =>
              refine ⟨⟨lout.files, StatusReport.Started ::
                  (lout.events ++ [StatusReport.Error EngineError.writeError]),
                  true, some EngineError.writeError⟩,
                lout.events, StatusReport.Error EngineError.writeError, ?_,
                rfl, rfl, hmid, by simp, ?_⟩
              · simp [split_chapters, split_chapters_internal, hconn, hcd, ho,
                  hpl, herr, htext, hwk]
              · intro er h
                simp only [Option.some.injEq] at h
                subst h
                rfl


/-- C10: when one or more non-matching lines precede the first matching
line, those leading lines form their own output file named from
`startChapter` (a preamble chapter containing no boundary line), and the
chapter begun by the first matching line is written under
`startChapter + 1`. -/
theorem C10_preamble (isMatch : String → Bool) (pre : List String)
    (line : String) (rest : List String) (s : Nat) (env : IOEnv)
    (hconn : env.connected = true) (hw : ∀ n, env.writeOk n = true)
    (hcd : env.createDirOk = true) (ho : env.openOk = true)
    (hpre : ∀ l ∈ pre, isMatch l = false) (hpne : pre ≠ [])
    (hm : isMatch line = true) :
    ∃ out f2 fs,
      split_chapters (some isMatch) (pre ++ line :: rest) s env = some out ∧
      out.err = none ∧
      out.files = ⟨s, fileName s, normalize pre⟩ :: f2 :: fs ∧
      f2.idx = s + 1 := by
  obtain ⟨o1, h1, herr1, hfs1, hch1, htext1⟩ :=
    processLines_nomatch isMatch env hconn pre s 0 "" hpre
  have htx : o1.chapterText = normalize pre := htext1.trans rfl
  have hpre_ne : normalize pre ≠ "" := by
    cases pre with
    | nil => exact absurd rfl hpne
    | cons l ls => exact normalize_cons_ne_empty l ls
  obtain ⟨o2, h2, herr2, hdisj⟩ :=
    processLines_first_idx isMatch env hconn hw rest (s + 1)
      (o1.lineNumber + 1) (line ++ "\n") (append_newline_ne_empty line)
  have h3 : ∃ evs2,
      processLines isMatch env (line :: rest) s o1.lineNumber o1.chapterText =
        some ⟨⟨s, fileName s, normalize pre⟩ :: o2.files, evs2,
          o2.err, o2.chapterNumber, o2.lineNumber, o2.chapterText⟩ := by
    by_cases hmod : (o1.lineNumber + 1) % 1000 = 0
    · refine ⟨StatusReport.NewTitle line :: StatusReport.ChaptersSplit (s + 1) ::
        StatusReport.LinesParsed (o1.lineNumber + 1) :: o2.events, ?_⟩
      simp [processLines, lineStep, finishLine, hconn, hw, hm, hmod, h2, htx,
        hpre_ne]
    · refine ⟨StatusReport.NewTitle line :: StatusReport.ChaptersSplit (s + 1) ::
        o2.events, ?_⟩
      simp [processLines, lineStep, finishLine, hconn, hw, hm, hmod, h2, htx,
        hpre_ne]
  obtain ⟨evs2, h3⟩ := h3
  have h4 : processLines isMatch env (pre ++ line :: rest) s 0 "" =
      some ⟨⟨s, fileName s, normalize pre⟩ :: o2.files, o1.events ++ evs2,
        o2.err, o2.chapterNumber, o2.lineNumber, o2.chapterText⟩ := by
    rw [processLines_append, h1]
    simp [herr1, hch1, hfs1, h3]
  rcases hdisj with ⟨hf2, hch2, htext2⟩ | ⟨f, fs0, hf, hidx⟩
  · refine ⟨⟨[⟨s, fileName s, normalize pre⟩,
        ⟨s + 1, fileName (s + 1), o2.chapterText⟩],
      StatusReport.Started :: ((o1.events ++ evs2) ++ [StatusReport.Done]),
      true, none⟩,
      ⟨s + 1, fileName (s + 1), o2.chapterText⟩, [], ?_, rfl, rfl, rfl⟩
    simp [split_chapters, split_chapters_internal, hconn, hcd, ho, h4, herr2,
      hf2, hch2, htext2, hw]
  · by_cases htext3 : o2.chapterText = ""
    · refine ⟨⟨⟨s, fileName s, normalize pre⟩ :: f :: fs0,
        StatusReport.Started :: ((o1.events ++ evs2) ++ [StatusReport.Done]),
        true, none⟩,
        f, fs0, ?_, rfl, rfl, hidx⟩
      simp [split_chapters, split_chapters_internal, hconn, hcd, ho, h4, herr2,
        hf, htext3]
    · refine ⟨⟨⟨s, fileName s, normalize pre⟩ :: f :: (fs0 ++
          [⟨o2.chapterNumber, fileName o2.chapterNumber, o2.chapterText⟩]),
        StatusReport.Started :: ((o1.events ++ evs2) ++ [StatusReport.Done]),
        true, none⟩,
        f, fs0 ++ [⟨o2.chapterNumber, fileName o2.chapterNumber,
          o2.chapterText⟩], ?_, rfl, rfl, hidx⟩
      simp [split_chapters, split_chapters_internal, hconn, hcd, ho, h4, herr2,
        hf, htext3, hw]

/-! ### Concrete witnesses for the hypothesised claim theorems -/

/-- Witness for C3 (amended) on a concrete match-free input. -/
theorem C3_no_match_witness :
    ∃ out, split_chapters (some chapterMatch) ["hello", "world"] 1 goodEnv =
        some out ∧
      out.err = none ∧
      out.files = [⟨1, fileName 1, normalize ["hello", "world"]⟩] :=
  C3_no_match chapterMatch ["hello", "world"] 1 goodEnv rfl (fun _ => rfl)
    rfl rfl (by decide) (by decide)

/-- Witness for C4 on the example input. -/
theorem C4_partition_witness :
    ∃ out, split_chapters (some chapterMatch) exLines 1 goodEnv = some out ∧
      out.err = none ∧
      List.Pairwise (· < ·) (out.files.map FileOut.idx) ∧
      concatFiles out.files = normalize exLines :=
  C4_partition chapterMatch exLines 1 goodEnv rfl (fun _ => rfl) rfl rfl

/-- Witness for C5 on the example input. -/
theorem C5_terminal_witness :
    ∃ out mid t, split_chapters (some chapterMatch) exLines 1 goodEnv =
        some out ∧
      out.events = StatusReport.Started :: (mid ++ [t]) ∧
      isTerminal t = true ∧
      (∀ e ∈ mid, isTerminal e = false ∧ e ≠ StatusReport.Started) ∧
      (out.err = none → t = StatusReport.Done) ∧
      (∀ er, out.err = some er → t = StatusReport.Error er) :=
  C5_terminal (some chapterMatch) exLines 1 goodEnv rfl

/-- Witness for C7 on the example input. -/
theorem C7_lines_parsed_witness :
    ∃ out, split_chapters (some chapterMatch) exLines 1 goodEnv = some out ∧
      out.err = none ∧
      lpVals out.events = lpExpected 0 exLines.length ∧
      List.Pairwise (· < ·) (lpVals out.events) ∧
      (∀ v ∈ lpVals out.events, v % 1000 = 0) ∧
      (∀ v, v ∈ lpVals out.events ↔
        0 < v ∧ v ≤ exLines.length ∧ v % 1000 = 0) :=
  C7_lines_parsed chapterMatch exLines 1 goodEnv rfl (fun _ => rfl) rfl rfl

/-- Witness for C8 on the example input. -/
theorem C8_naming_witness :
    ∃ out, split_chapters (some chapterMatch) exLines 1 goodEnv = some out ∧
      ∀ f ∈ out.files, f.name = rustZeroPad 4 f.idx ++ ".txt" ∧
        (rustZeroPad 4 f.idx).length = max 4 (Nat.repr f.idx).length ∧
        (4 ≤ (Nat.repr f.idx).length → rustZeroPad 4 f.idx = Nat.repr f.idx) :=
  C8_naming chapterMatch exLines 1 goodEnv rfl (fun _ => rfl) rfl rfl

/-- Witness for C10 on a concrete input with a one-line preamble. -/
theorem C10_preamble_witness :
    ∃ out f2 fs,
      split_chapters (some chapterMatch) (["intro"] ++ "Chapter 1" :: ["body"])
          1 goodEnv = some out ∧
      out.err = none ∧
      out.files = ⟨1, fileName 1, normalize ["intro"]⟩ :: f2 :: fs ∧
      f2.idx = 1 + 1 :=
  C10_preamble chapterMatch ["intro"] "Chapter 1" ["body"] 1 goodEnv rfl
    (fun _ => rfl) rfl rfl (by decide) (by decide) (by decide)

end BookSplitter
